import Mathlib

/-!
Verification development for the dfms composite (hierarchical) drop manager
(`dfms/manager/composite_manager.py`) and the TCP reachability prober
(`dfms/utils.py`).

Python dictionaries are embedded as association lists with unique keys in
insertion order; drop specifications are string-keyed records; exceptions are
an explicit error type threaded through `Except`.  Only the fields and
behaviours that the verified properties exercise are modelled; network and
thread-pool effects are represented by per-host outcome oracles and by an
explicit trace of the per-child calls that each operation issues.
-/

set_option autoImplicit false

deriving instance DecidableEq for Except

namespace Dfms

/-- The Python exceptions that the modelled code can raise.
`child tag` stands for an arbitrary exception raised by a per-child call
(remote failure, unreachable agent, ...), identified by an abstract tag.
`subManager` models `SubManagerException(msg, thrExs)` and `daliugeAgg`
models `DaliugeException(msg, thrExs)`, both carrying the host-to-error
dictionary; `daliugeUidsNotFound` models the
`DaliugeException("UIDs for completed drops not found: %r", not_found)`
raise in `deploySession`. -/
inductive PyErr where
  | keyError (key : String)
  | valueError (msg : String)
  | invalidGraph (msg : String)
  | daliuge (msg : String)
  | daliugeUidsNotFound (uids : List String)
  | daliugeAgg (msg : String) (hostErrors : List (String × Nat))
  | subManager (msg : String) (hostErrors : List (String × Nat))
  | child (tag : Nat)
  deriving Repr, DecidableEq

/-- Python dict lookup `d[k]` (as an `Option`): association lists built by
`dset`/`ddAppend` keep keys unique, first match wins. -/
def dget {α : Type} : List (String × α) → String → Option α
  | [], _ => none
  | (k', v) :: rest, k => if k' = k then some v else dget rest k

/-- Python dict assignment `d[k] = v`: replace the value under an existing
key in place, otherwise append the new entry at the end (insertion order). -/
def dset {α : Type} : List (String × α) → String → α → List (String × α)
  | [], k, v => [(k, v)]
  | (k', v') :: rest, k, v =>
    if k' = k then (k', v) :: rest else (k', v') :: dset rest k v

/-- `collections.defaultdict(list)` access-and-append:
`d[k].append(v)` creating the empty bucket if `k` is absent. -/
def ddAppend {α : Type} : List (String × List α) → String → α → List (String × List α)
  | [], k, v => [(k, [v])]
  | (k', vs) :: rest, k, v =>
    if k' = k then (k', vs ++ [v]) :: rest else (k', vs) :: ddAppend rest k v

/-- A drop specification: a string-keyed record (`oid`, optional `uid`, the
partition attribute such as `node` or `island`, and opaque extras). -/
abbrev DropSpec : Type := List (String × String)

instance : DecidableEq DropSpec :=
  inferInstanceAs (DecidableEq (List (String × String)))

/-- The session graph: a dict from unique identifier to drop spec
(`self._graph`). -/
abbrev Graph : Type := List (String × DropSpec)

instance : DecidableEq Graph :=
  inferInstanceAs (DecidableEq (List (String × DropSpec)))

/-- `DROPRel(lhs, rel, rhs)` from `dfms.ddap_protocol`. -/
structure DROPRel where
  lhs : String
  rel : String
  rhs : String
  deriving Repr, DecidableEq

/-- `uid_for_drop`: `dropSpec['uid']` when present, else `dropSpec['oid']`
(`none` models the `KeyError` when both are absent). -/
def uid_for_drop (dropSpec : DropSpec) : Option String :=
  match dget dropSpec "uid" with
  | some u => some u
  | none => dget dropSpec "oid"

/-- `sanitize_relations(interDMRelations, graph)`: for each relation, look the
`lhs`/`rhs` values up in `graph` and replace them by `uid_for_drop` of the
found spec; the in-place overwrite `interDMRelations[:] = newDMRelations` is
modelled by returning the new list.  A failed dict lookup is a `KeyError`. -/
def sanitize_relations (interDMRelations : List DROPRel) (graph : Graph) :
    Except PyErr (List DROPRel) :=
  match interDMRelations with
  | [] => .ok []
  | rel :: rest =>
    match dget graph rel.lhs with
    | none => .error (.keyError rel.lhs)
    | some lspec =>
      match uid_for_drop lspec with
      | none => .error (.keyError "oid")
      | some lhs =>
        match dget graph rel.rhs with
        | none => .error (.keyError rel.rhs)
        | some rspec =>
          match uid_for_drop rspec with
          | none => .error (.keyError "oid")
          | some rhs =>
            match sanitize_relations rest graph with
            | .error e => .error e
            | .ok rels => .ok (⟨lhs, rel.rel, rhs⟩ :: rels)

/-- The loop of `group_by_node`, with the `defaultdict(list)` accumulator made
explicit: `uids_by_node[graph[uid]['node']].append(uid)` for each uid in
order. -/
def group_by_node_loop (graph : Graph) (acc : List (String × List String)) :
    List String → Except PyErr (List (String × List String))
  | [] => .ok acc
  | uid :: rest =>
    match dget graph uid with
    | none => .error (.keyError uid)
    | some spec =>
      match dget spec "node" with
      | none => .error (.keyError "node")
      | some n => group_by_node_loop graph (ddAppend acc n uid) rest

/-- `group_by_node(uids, graph)`. -/
def group_by_node (uids : List String) (graph : Graph) :
    Except PyErr (List (String × List String)) :=
  group_by_node_loop graph [] uids

/-- One per-child call attempted by a composite-manager operation.  The bucket
of `addGraph` is the per-partition graph spec sent to that child. -/
inductive Msg where
  | create (host sid : String)
  | destroy (host sid : String)
  | addGraph (host sid : String) (bucket : List DropSpec)
  | subscriptions (host sid : String)
  | deploy (host sid : String)
  | trigger (host sid : String) (uids : List String)
  deriving DecidableEq

/-- The `exceptions` dict a fan-out accumulates (`thrExs`): for each item whose
per-child call fails — `fail` gives the abstract tag of the raised exception —
`_do_in_host` stores `exceptions[host] = e` before re-raising. -/
def collectExs {α : Type} (hostOf : α → String) (fail : α → Option Nat) :
    List α → List (String × Nat)
  | [] => []
  | a :: rest =>
    match fail a with
    | some tag => (hostOf a, tag) :: collectExs hostOf fail rest
    | none => collectExs hostOf fail rest

/-- `CompositeManager.replicate(sessionId, f, action, collect, iterable)`.

Every item is handed to `_do_in_host` on the thread pool, so every child is
attempted and each failing host is recorded in `thrExs`; the produced trace
(second component) therefore lists one message per item.  `_do_in_host`
re-raises the caught exception after recording it, and CPython's
`multiprocessing.pool.ThreadPool.map` re-raises a worker exception in the
caller, so `self._tp.map(...)` itself raises the (first) per-child exception
whenever `thrExs` is non-empty; the subsequent
`raise SubManagerException(msg, thrExs)` is consequently unreachable. -/
def replicateRun {α : Type} (action sessionId : String) (msgOf : α → Msg)
    (hostOf : α → String) (fail : α → Option Nat) (items : List α) :
    Except PyErr Unit × List Msg :=
  let thrExs := collectExs hostOf fail items
  let trace := items.map msgOf
  match thrExs.head? with
  | some he => (.error (.child he.2), trace)
  | none =>
    if thrExs.isEmpty then (.ok (), trace)
    else
      (.error (.subManager
        ("One or more errors occurred while " ++ action ++ " on session " ++ sessionId)
        thrExs), trace)

/-- A fan-out whose per-item wrapper catches its own exceptions without
re-raising (`_add_node_subscriptions_wrapper` and `_triggerDrops`): every item
is attempted, failures only populate the `exceptions` dict, and the caller
inspects that dict afterwards.  Returns `(thrExs, trace)`. -/
def fanoutCaught {α : Type} (msgOf : α → Msg) (hostOf : α → String)
    (fail : α → Option Nat) (items : List α) :
    List (String × Nat) × List Msg :=
  (collectExs hostOf fail items, items.map msgOf)

/-- The nested `defaultdict(functools.partial(defaultdict, list))` holding the
inter-partition relationships of one session: `host → host → [DROPRel]`. -/
abbrev RelMap : Type := List (String × List (String × List DROPRel))

instance : DecidableEq RelMap :=
  inferInstanceAs (DecidableEq (List (String × List (String × List DROPRel))))

/-- `drop_rels[a][b].append(r)` on the nested defaultdict: create the inner
defaultdict for `a` if absent, then append into its `b` bucket. -/
def dd2Append : RelMap → String → String → DROPRel → RelMap
  | [], a, b, r => [(a, [(b, [r])])]
  | (k, inner) :: rest, a, b, r =>
    if k = a then (k, ddAppend inner b r) :: rest
    else (k, inner) :: dd2Append rest a b r

/-- The relations recorded between hosts `a` and `b`: `map[a][b]`, read with
empty defaults. -/
def relsAt (m : RelMap) (a b : String) : List DROPRel :=
  match dget m a with
  | none => []
  | some inner => (dget inner b).getD []

/-- The `addGraphSpec` loop that stores the inter-partition relationships:
for each sanitized relation, look up the `node` attribute of both endpoint
specs and append the relation under `[lhn][rhn]` and `[rhn][lhn]`. -/
def buildDropRels (graph : Graph) : List DROPRel → RelMap → Except PyErr RelMap
  | [], m => .ok m
  | rel :: rest, m =>
    match dget graph rel.rhs with
    | none => .error (.keyError rel.rhs)
    | some rspec =>
      match dget rspec "node" with
      | none => .error (.keyError "node")
      | some rhn =>
        match dget graph rel.lhs with
        | none => .error (.keyError rel.lhs)
        | some lspec =>
          match dget lspec "node" with
          | none => .error (.keyError "node")
          | some lhn =>
            buildDropRels graph rest (dd2Append (dd2Append m lhn rhn rel) rhn lhn rel)

/-- The composite-manager state exercised by the verified properties:
the configured partition attribute, the direct children (`self._dmHosts`),
the session graph (`self._graph`), the per-session inter-partition maps
(`self._drop_rels`) and the session registry (`self._sessionIds`).  The
remaining constructor arguments (port, executable name, ssh key path, thread
pool) configure I/O only and are abstracted into the per-host outcome
oracles. -/
structure CMState where
  partitionAttr : String
  dmHosts : List String
  graph : Graph
  drop_rels : List (String × RelMap)
  sessionIds : List String
  deriving DecidableEq

/-- A fresh composite manager (`CompositeManager.__init__`): empty graph,
empty inter-partition maps, empty session registry. -/
def initCM (partitionAttr : String) (dmHosts : List String) : CMState :=
  { partitionAttr := partitionAttr, dmHosts := dmHosts,
    graph := [], drop_rels := [], sessionIds := [] }

/-- The observable outcome of one composite-manager operation: its result (or
raised exception), the state it leaves behind, and the per-child calls it
attempted in order. -/
structure Outcome (α : Type) where
  result : Except PyErr α
  state : CMState
  trace : List Msg

/-- `CompositeManager.createSession(sessionId)`: fan out
`dm.createSession(sessionId)` over `self._dmHosts`; only on full success
append the id to `self._sessionIds`. -/
def CMState.createSession (st : CMState) (fail : String → Option Nat)
    (sessionId : String) : Outcome Unit :=
  let r := replicateRun "creating sessions" sessionId
    (fun h => .create h sessionId) (fun h => h) fail st.dmHosts
  match r.1 with
  | .ok _ => ⟨.ok (), { st with sessionIds := st.sessionIds ++ [sessionId] }, r.2⟩
  | .error e => ⟨.error e, st, r.2⟩

/-- `CompositeManager.destroySession(sessionId)`: fan out
`dm.destroySession(sessionId)` (the source reuses the diagnostic string
"creating sessions"), then `self._sessionIds.remove(sessionId)` — which is
reached only when the fan-out raised nothing, and raises `ValueError` when the
id is absent from the registry. -/
def CMState.destroySession (st : CMState) (fail : String → Option Nat)
    (sessionId : String) : Outcome Unit :=
  let r := replicateRun "creating sessions" sessionId
    (fun h => .destroy h sessionId) (fun h => h) fail st.dmHosts
  match r.1 with
  | .error e => ⟨.error e, st, r.2⟩
  | .ok _ =>
    if sessionId ∈ st.sessionIds then
      ⟨.ok (), { st with sessionIds := st.sessionIds.erase sessionId }, r.2⟩
    else
      ⟨.error (.valueError "list.remove(x): x not in list"), st, r.2⟩

/-- The first loop of `CompositeManager.addGraphSpec`: validate the partition
attribute of each drop spec against `dmHosts`, bucket the spec into
`perPartition` and insert it into `self._graph` under `uid_for_drop`.  An
`InvalidGraphException` (whose message reads the spec's `oid`) aborts the loop
but leaves the buckets and graph mutations made so far in place. -/
def addSpecsLoop (partitionAttr : String) (dmHosts : List String)
    (perPartition : List (String × List DropSpec)) (graph : Graph) :
    List DropSpec → Except PyErr Unit × List (String × List DropSpec) × Graph
  | [] => (.ok (), perPartition, graph)
  | dropSpec :: rest =>
    match dget dropSpec partitionAttr with
    | none =>
      match dget dropSpec "oid" with
      | none => (.error (.keyError "oid"), perPartition, graph)
      | some oid =>
        (.error (.invalidGraph
          ("DROP " ++ oid ++ " doesn't specify a " ++ partitionAttr ++ " attribute")),
         perPartition, graph)
    | some partition =>
      if partition ∈ dmHosts then
        match uid_for_drop dropSpec with
        | none => (.error (.keyError "oid"), ddAppend perPartition partition dropSpec, graph)
        | some u =>
          addSpecsLoop partitionAttr dmHosts
            (ddAppend perPartition partition dropSpec) (dset graph u dropSpec) rest
      else
        match dget dropSpec "oid" with
        | none => (.error (.keyError "oid"), perPartition, graph)
        | some oid =>
          (.error (.invalidGraph
            ("DROP " ++ oid ++ "'s " ++ partitionAttr ++ " " ++ partition ++
             " does not belong to this DM")),
           perPartition, graph)

/-- `CompositeManager.addGraphSpec(sessionId, graphSpec)`.

`removeUnmet` stands for the external collaborator
`graph_loader.removeUnmetRelationships` (not part of the modelled sources): it
prunes a partition bucket in place and returns the removed inter-partition
relations, so it is passed in as a function from a bucket to the pruned bucket
and the extracted relations.  After the validation loop, the extracted
relations are sanitized against `self._graph`, the symmetric per-host relation
map is built and stored under the session id, and the pruned buckets are
fanned out to the children via `replicate`. -/
def CMState.addGraphSpec (st : CMState)
    (removeUnmet : List DropSpec → List DropSpec × List DROPRel)
    (fail : String → Option Nat) (sessionId : String) (graphSpec : List DropSpec) :
    Outcome Unit :=
  match addSpecsLoop st.partitionAttr st.dmHosts [] st.graph graphSpec with
  | (.error e, _, g) => ⟨.error e, { st with graph := g }, []⟩
  | (.ok _, perPartition, g) =>
    let prunedPartition := perPartition.map (fun p => (p.1, (removeUnmet p.2).1))
    let inter_partition_rels := (perPartition.map (fun p => (removeUnmet p.2).2)).flatten
    match sanitize_relations inter_partition_rels g with
    | .error e => ⟨.error e, { st with graph := g }, []⟩
    | .ok sanitized =>
      match buildDropRels g sanitized [] with
      | .error e => ⟨.error e, { st with graph := g }, []⟩
      | .ok dropRelsMap =>
        let st2 := { st with graph := g,
                             drop_rels := dset st.drop_rels sessionId dropRelsMap }
        let r := replicateRun "appending graphSpec to individual DMs" sessionId
          (fun p => .addGraph p.1 sessionId p.2) (fun p => p.1) (fun p => fail p.1)
          prunedPartition
        ⟨r.1, st2, r.2⟩

/-- `CompositeManager.deploySession(sessionId, completedDrops)`.

Reads `self._drop_rels[sessionId]` first (`KeyError` when the session never
went through `addGraphSpec`); if the map is non-empty, fans out the node
subscriptions to the leaf nodes with a catching wrapper and raises
`DaliugeException` on any recorded failure; then fans out
`dm.deploySession` over the children via `replicate`; finally, when
`completedDrops` is non-empty, validates every uid against `self._graph`
(raising `DaliugeException` over the missing set before any trigger is sent),
groups the uids by their spec's `node` attribute and fans out
`trigger_drops` with a catching wrapper.  `subFail`, `deployFail` and
`trigFail` are the per-host outcome oracles of the three phases. -/
def CMState.deploySession (st : CMState) (subFail deployFail trigFail : String → Option Nat)
    (sessionId : String) (completedDrops : List String) : Outcome Unit :=
  match dget st.drop_rels sessionId with
  | none => ⟨.error (.keyError sessionId), st, []⟩
  | some dropRelsMap =>
    let subs := fanoutCaught (fun p => .subscriptions p.1 sessionId) (fun p => p.1)
      (fun p => subFail p.1) dropRelsMap
    if ¬ subs.1.isEmpty then
      ⟨.error (.daliugeAgg
        ("One or more exceptions occurred while adding node subscription: " ++ sessionId)
        subs.1), st, subs.2⟩
    else
      let subTrace := subs.2
      let dep := replicateRun "deploying session" sessionId
        (fun h => .deploy h sessionId) (fun h => h) deployFail st.dmHosts
      match dep.1 with
      | .error e => ⟨.error e, st, subTrace ++ dep.2⟩
      | .ok _ =>
        if completedDrops.isEmpty then
          ⟨.ok (), st, subTrace ++ dep.2⟩
        else
          let not_found := (completedDrops.filter (fun u => dget st.graph u = none)).dedup
          if ¬ not_found.isEmpty then
            ⟨.error (.daliugeUidsNotFound not_found), st, subTrace ++ dep.2⟩
          else
            match group_by_node completedDrops st.graph with
            | .error e => ⟨.error e, st, subTrace ++ dep.2⟩
            | .ok completed_by_host =>
              let trig := fanoutCaught (fun p => .trigger p.1 sessionId p.2)
                (fun p => p.1) (fun p => trigFail p.1) completed_by_host
              if ¬ trig.1.isEmpty then
                ⟨.error (.daliugeAgg
                  ("One or more exceptions occurred while moving DROPs to COMPLETED: " ++
                   sessionId) trig.1), st, subTrace ++ dep.2 ++ trig.2⟩
              else
                ⟨.ok (), st, subTrace ++ dep.2 ++ trig.2⟩

/-! ### DataIslandManager list aliasing

Python attribute assignment binds references to heap objects, so
`self._nodes = dmHosts` in `DataIslandManager.__init__` makes `_nodes` and
`_dmHosts` the *same* list object.  The heap of list objects is made explicit
so that this aliasing is a provable fact rather than a modelling choice. -/

/-- Read heap cell `i` (a Python list object). -/
def heapGet (heap : List (List String)) (i : Nat) : List String :=
  (heap.get? i).getD []

/-- Overwrite heap cell `i`. -/
def heapSet (heap : List (List String)) (i : Nat) (v : List String) :
    List (List String) :=
  heap.set i v

/-- A `DataIslandManager`: the heap of list objects together with the
references held by `self._nodes` and `self._dmHosts`. -/
structure DIM where
  heap : List (List String)
  nodesRef : Nat
  dmHostsRef : Nat
  deriving DecidableEq

/-- `DataIslandManager.__init__(dmHosts)`: the base constructor binds
`self._dmHosts` to the caller's list (cell 0) and `self._nodes` to a fresh
empty list (cell 1); the subclass then rebinds `self._nodes = dmHosts`,
leaving both attributes referring to cell 0. -/
def mkDataIslandManager (dmHosts : List String) : DIM :=
  { heap := [dmHosts, []], dmHostsRef := 0, nodesRef := 0 }

/-- The `nodes` property (`return self._nodes[:]` — the copy is a fresh list
with the same elements). -/
def DIM.nodes (m : DIM) : List String :=
  heapGet m.heap m.nodesRef

/-- The `dmHosts` property (`return self._dmHosts[:]`). -/
def DIM.dmHostsView (m : DIM) : List String :=
  heapGet m.heap m.dmHostsRef

/-- `DataIslandManager.add_node(node)`: the base-class method appends to
`self._nodes`, then the override appends to `self._dmHosts`. -/
def DIM.add_node (m : DIM) (node : String) : DIM :=
  let m1 := { m with heap := heapSet m.heap m.nodesRef (heapGet m.heap m.nodesRef ++ [node]) }
  { m1 with heap := heapSet m1.heap m1.dmHostsRef (heapGet m1.heap m1.dmHostsRef ++ [node]) }

/-- `CompositeManager.addDmHost(host)`: append to `self._dmHosts`. -/
def DIM.addDmHost (m : DIM) (host : String) : DIM :=
  { m with heap := heapSet m.heap m.dmHostsRef (heapGet m.heap m.dmHostsRef ++ [host]) }

/-! ### Reachability prober (`dfms/utils.py`)

`writeToRemotePort` is a retry loop around a TCP connect.  Real time is
modelled in milliseconds: the `i`-th connection attempt is decided by the
oracle `outcome i` and consumes `dur i` milliseconds, `time.sleep(0.1)`
advances the clock by 100 ms, and the elapsed time `time.time() - start` at
the top of iteration `i` is the accumulated total.  The loop may run forever
(`timeout=None` with a forever-refusing peer), so it is embedded with an
explicit fuel; `none` means the loop was still running after `fuel`
iterations. -/

/-- The outcome of one `socket.connect` attempt. -/
inductive ConnOutcome where
  | connected
  | timedOut
  | reset
  | refused
  | failure (errno : Nat)
  deriving Repr, DecidableEq

/-- The loop of `writeToRemotePort(host, port, data=None, timeout)` with the
probing call's `data=None`, so a successful connect returns `True` without
sending.  `timeout` is in milliseconds (`none` models `timeout=None`);
`elapsed` is `time.time() - start` at the top of the current iteration.
The error result propagates the errno of an unexpected `socket.error`. -/
def writeToRemotePortLoop (timeout : Option Nat) (outcome : Nat → ConnOutcome)
    (dur : Nat → Nat) : Nat → Nat → Nat → Option (Except Nat Bool)
  | 0, _, _ => none
  | fuel + 1, i, elapsed =>
    let deadlineHit : Bool :=
      match timeout with
      | some t => t != 0 && decide (t ≤ elapsed)
      | none => false
    if deadlineHit then some (.ok false)
    else
      match outcome i with
      | .connected => some (.ok true)
      | .timedOut => some (.ok false)
      | .reset => some (.ok false)
      | .failure errno => some (.error errno)
      | .refused =>
        match timeout with
        | some t =>
          if t < elapsed + dur i then some (.ok false)
          else writeToRemotePortLoop timeout outcome dur fuel (i + 1) (elapsed + dur i + 100)
        | none => writeToRemotePortLoop timeout outcome dur fuel (i + 1) (elapsed + dur i + 100)

/-- `portIsOpen(host, port, timeout)` =
`writeToRemotePort(host, port, data=None, timeout)`, started at elapsed
time 0 with the given fuel. -/
def portIsOpen (timeout : Option Nat) (outcome : Nat → ConnOutcome)
    (dur : Nat → Nat) (fuel : Nat) : Option (Except Nat Bool) :=
  writeToRemotePortLoop timeout outcome dur fuel 0 0

/-! ### Derived notions used by the statements -/

/-- A drop spec that passes the `addGraphSpec` validation loop at the given
tier: the partition attribute is present, its value is a known child, and
`uid_for_drop` is defined. -/
def validSpec (partitionAttr : String) (dmHosts : List String) (d : DropSpec) : Prop :=
  ∃ p, dget d partitionAttr = some p ∧ p ∈ dmHosts ∧ (uid_for_drop d).isSome

/-- Insert a list of drop specs into a graph under their unique ids (the
graph mutation performed for each validated spec). -/
def insertSpecs (g : Graph) : List DropSpec → Graph
  | [] => g
  | d :: rest => insertSpecs (dset g ((uid_for_drop d).getD "") d) rest

/-- The `InvalidGraphException` message produced for an offending spec:
one message when the partition attribute is missing, another when its value
is not a known child. -/
def invalidGraphMsg (partitionAttr : String) (d : DropSpec) : String :=
  match dget d partitionAttr with
  | none =>
    "DROP " ++ (dget d "oid").getD "" ++ " doesn't specify a " ++
      partitionAttr ++ " attribute"
  | some p =>
    "DROP " ++ (dget d "oid").getD "" ++ "'s " ++ partitionAttr ++ " " ++ p ++
      " does not belong to this DM"

/-- Symmetry of an inter-partition relation map: every relation recorded
between hosts `a` and `b` appears in both `map[a][b]` and `map[b][a]`. -/
def SymmRelMap (m : RelMap) : Prop :=
  ∀ r a b, r ∈ relsAt m a b ↔ r ∈ relsAt m b a

/-! ### Concrete scenario inputs -/

/-- `{oid:"A", node:"h1"}`. -/
def specA : DropSpec := [("oid", "A"), ("node", "h1")]

/-- `{oid:"B", node:"h2"}`. -/
def specB2 : DropSpec := [("oid", "B"), ("node", "h2")]

/-- `{oid:"B", node:"h3"}` — `h3` is not a managed host. -/
def specB3 : DropSpec := [("oid", "B"), ("node", "h3")]

/-- `{oid:"A", uid:"uA", node:"h1"}`. -/
def specAU : DropSpec := [("oid", "A"), ("uid", "uA"), ("node", "h1")]

/-- `{oid:"B", uid:"uB", node:"h2"}`. -/
def specBU : DropSpec := [("oid", "B"), ("uid", "uB"), ("node", "h2")]

/-- `DROPRel("A", "STREAM", "B")`, in object-identifier space. -/
def relAB : DROPRel := ⟨"A", "STREAM", "B"⟩

/-- An Island-tier composite manager over hosts `h1`, `h2`. -/
def islandCM : CMState := initCM "node" ["h1", "h2"]

/-- All per-child calls succeed. -/
def failNone : String → Option Nat := fun _ => none

/-- The per-child call fails on `h2` (with the exception tagged 7) and
succeeds elsewhere. -/
def failH2 : String → Option Nat := fun h => if h = "h2" then some 7 else none

/-- A `removeUnmetRelationships` behaviour with no inter-partition edges:
buckets are left unchanged and nothing is extracted. -/
def rmNone : List DropSpec → List DropSpec × List DROPRel := fun b => (b, [])

/-- A `removeUnmetRelationships` behaviour that extracts the cross-partition
edge `relAB` from the bucket holding drop `A` (specified with a distinct
uid). -/
def rmABU : List DropSpec → List DropSpec × List DROPRel :=
  fun b => if b = [specAU] then (b, [relAB]) else (b, [])

/-- The same, for drop `A` specified without a `uid`. -/
def rmABO : List DropSpec → List DropSpec × List DROPRel :=
  fun b => if b = [specA] then (b, [relAB]) else (b, [])

/-- The session graph `addGraphSpec` builds from `[specAU, specBU]`:
keyed by the unique identifiers. -/
def graphU : Graph := [("uA", specAU), ("uB", specBU)]

/-- The Island manager after `addGraphSpec("s", [specA, specB2])` with the
cross-partition edge `relAB`. -/
def islandWithGraph : CMState :=
  (islandCM.addGraphSpec rmABO failNone "s" [specA, specB2]).state

/-! ## Helper lemmas -/

theorem collectExs_eq_nil {α : Type} (hostOf : α → String) (fail : α → Option Nat)
    (items : List α) :
    collectExs hostOf fail items = [] ↔ ∀ a ∈ items, fail a = none := by
  induction items with
  | nil => simp [collectExs]
  | cons a rest ih =>
    cases h : fail a <;> simp [collectExs, h, ih]

theorem replicateRun_trace {α : Type} (action sessionId : String) (msgOf : α → Msg)
    (hostOf : α → String) (fail : α → Option Nat) (items : List α) :
    (replicateRun action sessionId msgOf hostOf fail items).2 = items.map msgOf := by
  unfold replicateRun
  cases h : (collectExs hostOf fail items).head?
  · simp only [h]
    split <;> rfl
  · simp [h]

theorem replicateRun_result {α : Type} (action sessionId : String) (msgOf : α → Msg)
    (hostOf : α → String) (fail : α → Option Nat) (items : List α) :
    (replicateRun action sessionId msgOf hostOf fail items).1 =
      match (collectExs hostOf fail items).head? with
      | some he => .error (.child he.2)
      | none => .ok () := by
  unfold replicateRun
  cases h : (collectExs hostOf fail items).head? with
  | none =>
    have : collectExs hostOf fail items = [] := List.head?_eq_none_iff.mp h
    simp [h, this]
  | some he => simp [h]

theorem replicateRun_ok_iff {α : Type} (action sessionId : String) (msgOf : α → Msg)
    (hostOf : α → String) (fail : α → Option Nat) (items : List α) :
    (replicateRun action sessionId msgOf hostOf fail items).1 = .ok () ↔
      ∀ a ∈ items, fail a = none := by
  rw [replicateRun_result]
  cases hh : (collectExs hostOf fail items).head? with
  | none =>
    have hall : ∀ a ∈ items, fail a = none :=
      (collectExs_eq_nil hostOf fail items).mp (List.head?_eq_none_iff.mp hh)
    exact ⟨fun _ => hall, fun _ => rfl⟩
  | some he =>
    have hne : collectExs hostOf fail items ≠ [] := by
      intro hc
      rw [hc] at hh
      exact Option.noConfusion hh
    constructor
    · intro hc
      exact absurd hc (by simp)
    · intro hall
      exact absurd ((collectExs_eq_nil hostOf fail items).mpr hall) hne

theorem replicateRun_error {α : Type} (action sessionId : String) (msgOf : α → Msg)
    (hostOf : α → String) (fail : α → Option Nat) (items : List α)
    (h : ¬ ∀ a ∈ items, fail a = none) :
    ∃ e, (replicateRun action sessionId msgOf hostOf fail items).1 = .error e := by
  rw [replicateRun_result]
  cases hh : (collectExs hostOf fail items).head? with
  | none =>
    have : collectExs hostOf fail items = [] := List.head?_eq_none_iff.mp hh
    exact absurd ((collectExs_eq_nil hostOf fail items).mp this) h
  | some he => exact ⟨.child he.2, rfl⟩

theorem dget_dset_self {α : Type} (l : List (String × α)) (k : String) (v : α) :
    dget (dset l k v) k = some v := by
  induction l with
  | nil => simp [dset, dget]
  | cons p rest ih =>
    by_cases h : p.1 = k <;> simp [dset, dget, h, ih]

theorem dget_dset_ne {α : Type} (l : List (String × α)) (k k' : String) (v : α)
    (h : k ≠ k') : dget (dset l k v) k' = dget l k' := by
  induction l with
  | nil => simp [dset, dget, h]
  | cons p rest ih =>
    by_cases hp : p.1 = k
    · simp [dset, dget, hp, h, Ne.symm h]
    · by_cases hp' : p.1 = k' <;> simp [dset, dget, hp, hp', ih, Ne.symm h]

theorem dget_ddAppend_self {α : Type} (l : List (String × List α)) (k : String) (v : α) :
    dget (ddAppend l k v) k = some ((dget l k).getD [] ++ [v]) := by
  induction l with
  | nil => simp [ddAppend, dget]
  | cons p rest ih =>
    by_cases h : p.1 = k <;> simp [ddAppend, dget, h, ih]

theorem dget_ddAppend_ne {α : Type} (l : List (String × List α)) (k k' : String) (v : α)
    (h : k ≠ k') : dget (ddAppend l k v) k' = dget l k' := by
  induction l with
  | nil => simp [ddAppend, dget, h]
  | cons p rest ih =>
    by_cases hp : p.1 = k
    · simp [ddAppend, dget, hp, h, Ne.symm h]
    · by_cases hp' : p.1 = k' <;> simp [ddAppend, dget, hp, hp', ih, Ne.symm h]

theorem dget_dd2Append_self (m : RelMap) (a b : String) (r : DROPRel) :
    dget (dd2Append m a b r) a = some (ddAppend ((dget m a).getD []) b r) := by
  induction m with
  | nil =>
    show dget [(a, [(b, [r])])] a = some (ddAppend [] b r)
    simp [dget, ddAppend]
  | cons p rest ih =>
    obtain ⟨k, inner⟩ := p
    by_cases h : k = a <;> simp [dd2Append, dget, h, ih]

theorem dget_dd2Append_ne (m : RelMap) (a b : String) (r : DROPRel) (x : String)
    (h : a ≠ x) : dget (dd2Append m a b r) x = dget m x := by
  induction m with
  | nil => simp [dd2Append, dget, h]
  | cons p rest ih =>
    obtain ⟨k, inner⟩ := p
    by_cases hk : k = a
    · subst hk
      simp [dd2Append, dget, h, Ne.symm h]
    · by_cases hx : k = x <;> simp [dd2Append, dget, hk, hx, ih, Ne.symm h]

theorem relsAt_eq (m : RelMap) (x y : String) :
    relsAt m x y = (dget ((dget m x).getD []) y).getD [] := by
  cases h : dget m x <;> simp [relsAt, h, dget]

theorem relsAt_dd2Append (m : RelMap) (a b : String) (r : DROPRel) (x y : String) :
    relsAt (dd2Append m a b r) x y =
      if x = a ∧ y = b then relsAt m x y ++ [r] else relsAt m x y := by
  by_cases hx : x = a
  · subst hx
    rw [relsAt_eq, dget_dd2Append_self]
    by_cases hy : y = b
    · subst hy
      simp [dget_ddAppend_self, relsAt_eq]
    · rw [Option.getD_some, dget_ddAppend_ne _ _ _ _ (fun hc => hy hc.symm)]
      simp [relsAt_eq, hy]
  · rw [relsAt_eq, dget_dd2Append_ne _ _ _ _ _ (fun hc => hx hc.symm), ← relsAt_eq]
    simp [hx]

theorem mem_relsAt_dd2Append (m : RelMap) (a b : String) (r r' : DROPRel) (x y : String) :
    r' ∈ relsAt (dd2Append m a b r) x y ↔
      r' ∈ relsAt m x y ∨ (r' = r ∧ x = a ∧ y = b) := by
  rw [relsAt_dd2Append]
  split_ifs with h
  · obtain ⟨hx, hy⟩ := h
    simp [List.mem_append, hx, hy]
  · constructor
    · intro hmem
      exact Or.inl hmem
    · intro hmem
      rcases hmem with hmem | ⟨_, hx, hy⟩
      · exact hmem
      · exact absurd ⟨hx, hy⟩ h

theorem symmRelMap_dd2Append2 (m : RelMap) (a b : String) (r : DROPRel)
    (hm : SymmRelMap m) :
    SymmRelMap (dd2Append (dd2Append m a b r) b a r) := by
  intro r' x y
  rw [mem_relsAt_dd2Append, mem_relsAt_dd2Append, mem_relsAt_dd2Append,
    mem_relsAt_dd2Append, hm r' x y]
  tauto

theorem buildDropRels_symm (graph : Graph) (rels : List DROPRel) (m0 m : RelMap)
    (h : buildDropRels graph rels m0 = .ok m) (h0 : SymmRelMap m0) :
    SymmRelMap m := by
  induction rels generalizing m0 with
  | nil =>
    simp only [buildDropRels, Except.ok.injEq] at h
    subst h
    exact h0
  | cons rel rest ih =>
    rw [buildDropRels] at h
    split at h
    · exact absurd h (by simp)
    · split at h
      · exact absurd h (by simp)
      · split at h
        · exact absurd h (by simp)
        · split at h
          · exact absurd h (by simp)
          · exact ih _ h (symmRelMap_dd2Append2 _ _ _ _ h0)

/-! ## Claims -/

/-- C1: with `dmHosts = ["h1", "h2"]` and `h2`'s `createSession` raising,
`createSession("s")` attempts both children (the trace shows `h1` was still
called) and the session registry is untouched — but the raised exception is
the underlying per-child error propagated by the thread pool's `map`, not a
`SubManagerException` carrying the host-to-error map: the aggregation branch
of `replicate` is unreachable because `_do_in_host` re-raises after recording
the error. -/
theorem c1_fanout_partial_failure :
    (islandCM.createSession failH2 "s").result = .error (.child 7) ∧
    (islandCM.createSession failH2 "s").trace = [.create "h1" "s", .create "h2" "s"] ∧
    (islandCM.createSession failH2 "s").state.sessionIds = [] := by
  refine ⟨by decide, by decide, by decide⟩

/-- C2 counterexample: with session `"s"` registered and `h2`'s
`destroySession` raising, `destroySession("s")` raises — and `"s"` is still
in the registry afterwards, contradicting the claimed unconditional removal:
`self._sessionIds.remove(sessionId)` sits after the fan-out, which raised. -/
theorem c2_counterexample :
    (({ islandCM with sessionIds := ["s"] } : CMState).destroySession failH2 "s").result =
      .error (.child 7) ∧
    "s" ∈ (({ islandCM with sessionIds := ["s"] } : CMState).destroySession failH2 "s").state.sessionIds := by
  refine ⟨by decide, by decide⟩

/-- C2 (amended): `destroySession(sid)` removes `sid` from the session
registry only when the fan-out succeeded on every child; on any per-child
failure the exception propagates and the registry is left unchanged, so the
id is still reported by `getSessionIds()`. -/
theorem c2_destroy_removes_only_on_success (st : CMState) (fail : String → Option Nat)
    (sid : String) (hmem : sid ∈ st.sessionIds) :
    ((∀ h ∈ st.dmHosts, fail h = none) →
      (st.destroySession fail sid).result = .ok () ∧
      (st.destroySession fail sid).state.sessionIds = st.sessionIds.erase sid) ∧
    ((¬ ∀ h ∈ st.dmHosts, fail h = none) →
      (∃ e, (st.destroySession fail sid).result = .error e) ∧
      (st.destroySession fail sid).state.sessionIds = st.sessionIds) := by
  constructor
  · intro hall
    have hok : (replicateRun "creating sessions" sid (fun h => Msg.destroy h sid)
        (fun h => h) fail st.dmHosts).1 = .ok () :=
      (replicateRun_ok_iff _ _ _ _ _ _).mpr hall
    simp only [CMState.destroySession, hok, hmem, if_true]
    exact ⟨by trivial, by trivial⟩
  · intro hfail
    obtain ⟨e, he⟩ := replicateRun_error "creating sessions" sid
      (fun h => Msg.destroy h sid) (fun h => h) fail st.dmHosts hfail
    simp only [CMState.destroySession, he]
    exact ⟨⟨e, by trivial⟩, by trivial⟩

theorem c2_witness :
    (({ islandCM with sessionIds := ["s"] } : CMState).destroySession failNone "s").result = .ok () ∧
    (({ islandCM with sessionIds := ["s"] } : CMState).destroySession failNone "s").state.sessionIds = [] := by
  have h := (c2_destroy_removes_only_on_success { islandCM with sessionIds := ["s"] }
    failNone "s" (by decide)).1 (fun h _ => rfl)
  exact ⟨h.1, by rw [h.2]; decide⟩

/-- C4: the session graph built by `addGraphSpec` from
`[{oid:"A", uid:"uA", node:"h1"}, {oid:"B", uid:"uB", node:"h2"}]` is keyed
by the *unique* identifiers, while `sanitize_relations` receives relations in
*object*-identifier space and looks them up directly in that graph — so with
cross-partition edge `DROPRel("A", "STREAM", "B")` the lookup raises
`KeyError("A")` instead of storing `("uA", "STREAM", "uB")`, both when called
directly and through `addGraphSpec`. -/
theorem c4_sanitize_relations_uid_oid_mismatch :
    (islandCM.addGraphSpec rmABU failNone "s" [specAU, specBU]).state.graph = graphU ∧
    sanitize_relations [relAB] graphU = .error (.keyError "A") ∧
    (islandCM.addGraphSpec rmABU failNone "s" [specAU, specBU]).result = .error (.keyError "A") := by
  refine ⟨by decide, by decide, by decide⟩

/-- C9: when a session never went through `addGraphSpec` on this manager,
`deploySession` raises a `KeyError` at the very first statement
(`self._drop_rels[sessionId]`) before contacting any child, whatever the
session registry says, and leaves the state untouched. -/
theorem c9_deploy_requires_addGraphSpec (st : CMState)
    (subFail deployFail trigFail : String → Option Nat) (sid : String)
    (completedDrops : List String) (h : dget st.drop_rels sid = none) :
    (st.deploySession subFail deployFail trigFail sid completedDrops).result =
      .error (.keyError sid) ∧
    (st.deploySession subFail deployFail trigFail sid completedDrops).trace = [] ∧
    (st.deploySession subFail deployFail trigFail sid completedDrops).state = st := by
  simp only [CMState.deploySession, h]
  exact ⟨by trivial, by trivial, by trivial⟩

theorem c9_witness :
    (({ islandCM with sessionIds := ["s"] } : CMState).deploySession
      failNone failNone failNone "s" []).result = .error (.keyError "s") :=
  (c9_deploy_requires_addGraphSpec { islandCM with sessionIds := ["s"] }
    failNone failNone failNone "s" [] (by decide)).1

/-- C10: `DataIslandManager` binds `self._nodes` to the very list object held
by `self._dmHosts`, so one `add_node(n)` call appends `n` twice to the shared
list (once through the base-class append to `_nodes`, once through the
subclass append to `_dmHosts`), and `addDmHost(h)` also makes `h` appear in
`nodes`. -/
theorem c10_nodes_dmHosts_alias (hosts : List String) (n h : String) :
    (mkDataIslandManager hosts).nodesRef = (mkDataIslandManager hosts).dmHostsRef ∧
    ((mkDataIslandManager hosts).add_node n).nodes = hosts ++ [n, n] ∧
    ((mkDataIslandManager hosts).add_node n).dmHostsView = hosts ++ [n, n] ∧
    ((mkDataIslandManager hosts).addDmHost h).nodes = hosts ++ [h] ∧
    h ∈ ((mkDataIslandManager hosts).addDmHost h).nodes := by
  refine ⟨rfl, ?_, ?_, ?_, ?_⟩ <;>
    simp [mkDataIslandManager, DIM.add_node, DIM.addDmHost, DIM.nodes, DIM.dmHostsView,
      heapGet, heapSet]

/-- C5: starting from a state where `sid` is not registered, after
`createSession(sid)` the id is in the session registry iff the per-child call
succeeded on every host; moreover on partial failure the registry is exactly
unchanged. -/
theorem c5_registry_iff_full_success (st : CMState) (fail : String → Option Nat)
    (sid : String) (hnot : sid ∉ st.sessionIds) :
    (sid ∈ (st.createSession fail sid).state.sessionIds ↔ ∀ h ∈ st.dmHosts, fail h = none) ∧
    ((¬ ∀ h ∈ st.dmHosts, fail h = none) →
      (st.createSession fail sid).state.sessionIds = st.sessionIds) := by
  by_cases hall : ∀ h ∈ st.dmHosts, fail h = none
  · have hok : (replicateRun "creating sessions" sid (fun h => Msg.create h sid)
        (fun h => h) fail st.dmHosts).1 = .ok () :=
      (replicateRun_ok_iff _ _ _ _ _ _).mpr hall
    simp only [CMState.createSession, hok]
    constructor
    · exact ⟨fun _ => hall, fun _ => by simp⟩
    · intro hc
      exact absurd hall hc
  · obtain ⟨e, he⟩ := replicateRun_error "creating sessions" sid
      (fun h => Msg.create h sid) (fun h => h) fail st.dmHosts hall
    simp only [CMState.createSession, he]
    constructor
    · exact ⟨fun hm => absurd hm hnot, fun hforall => absurd hforall hall⟩
    · intro _
      trivial

theorem c5_witness :
    "s" ∈ (islandCM.createSession failNone "s").state.sessionIds ∧
    (islandCM.createSession failH2 "s").state.sessionIds = [] := by
  constructor
  · exact (c5_registry_iff_full_success islandCM failNone "s" (by decide)).1.mpr
      (fun h _ => rfl)
  · exact (c5_registry_iff_full_success islandCM failH2 "s" (by decide)).2
      (fun hall => absurd (hall "h2" (by decide)) (by decide))

/-- C7: `addGraphSpec` preserves the invariant that every stored
inter-partition map is symmetric — each relation recorded between nodes `A`
and `B` appears in both `map[A][B]` and `map[B][A]`, because the storing loop
appends every sanitized relation under both orientations. -/
theorem c7_drop_rels_symmetric (st : CMState)
    (removeUnmet : List DropSpec → List DropSpec × List DROPRel)
    (fail : String → Option Nat) (sessionId : String) (graphSpec : List DropSpec)
    (hst : ∀ s m, dget st.drop_rels s = some m → SymmRelMap m) :
    ∀ s m,
      dget (st.addGraphSpec removeUnmet fail sessionId graphSpec).state.drop_rels s = some m →
      SymmRelMap m := by
  intro s m hm
  simp only [CMState.addGraphSpec] at hm
  split at hm
  · exact hst s m hm
  · split at hm
    · exact hst s m hm
    · split at hm
      · exact hst s m hm
      · rename_i dropRelsMap hbuild
        by_cases hs : s = sessionId
        · subst hs
          rw [dget_dset_self] at hm
          injection hm with h2
          subst h2
          exact buildDropRels_symm _ _ _ _ hbuild (fun r a b => Iff.rfl)
        · rw [dget_dset_ne _ _ _ _ (fun hc => hs hc.symm)] at hm
          exact hst s m hm

theorem c7_witness :
    dget islandWithGraph.drop_rels "s" =
      some [("h1", [("h2", [relAB])]), ("h2", [("h1", [relAB])])] ∧
    (relAB ∈ relsAt [("h1", [("h2", [relAB])]), ("h2", [("h1", [relAB])])] "h1" "h2" ↔
      relAB ∈ relsAt [("h1", [("h2", [relAB])]), ("h2", [("h1", [relAB])])] "h2" "h1") := by
  refine ⟨by decide, ?_⟩
  have h := c7_drop_rels_symmetric islandCM rmABO failNone "s" [specA, specB2]
    (fun s m hm => absurd hm (by simp [islandCM, initCM, dget]))
  exact h "s" _ (by decide) relAB "h1" "h2"

/-- With a finite timeout and a peer that refuses every connection attempt,
the retry loop (each iteration: one attempt, then a 100 ms sleep) returns
`False` as soon as the elapsed time passes the deadline. -/
theorem writeToRemotePortLoop_all_refused (t : Nat) (o : Nat → ConnOutcome)
    (d : Nat → Nat) (ho : ∀ j, o j = .refused) :
    ∀ f i elapsed, t < elapsed + 100 * f →
      writeToRemotePortLoop (some t) o d (f + 1) i elapsed = some (.ok false) := by
  intro f
  induction f with
  | zero =>
    intro i elapsed hlt
    simp only [Nat.mul_zero, Nat.add_zero] at hlt
    rw [writeToRemotePortLoop]
    by_cases ht : t = 0
    · subst ht
      simp only [ho i]
      have hd : 0 < elapsed + d i := Nat.lt_of_lt_of_le hlt (Nat.le_add_right _ _)
      simp [hd]
    · have hle : t ≤ elapsed := Nat.le_of_lt hlt
      simp [ht, hle]
  | succ f ih =>
    intro i elapsed hlt
    rw [writeToRemotePortLoop]
    by_cases hdl : (t != 0 && decide (t ≤ elapsed)) = true
    · simp [hdl]
    · simp only [hdl, Bool.false_eq_true, if_false, ho i]
      by_cases hdur : t < elapsed + d i
      · simp [hdur]
      · have : t < elapsed + d i + 100 + 100 * f := by
          have h1 : t < elapsed + 100 * (f + 1) := hlt
          omega
        simp only [hdur, if_false]
        exact ih (i + 1) (elapsed + d i + 100) this

/-- C8: the probing loop behind `portIsOpen` returns `False` at the very
first attempt that fails with `ECONNRESET`, returns `False` on a socket
timeout, propagates any other socket error to the caller, and under
`ECONNREFUSED` keeps retrying (sleeping 100 ms between attempts) until the
elapsed time exceeds the deadline, at which point it returns `False`. -/
theorem c8_portIsOpen_behaviour (timeout : Option Nat) (o : Nat → ConnOutcome)
    (d : Nat → Nat) (f t errno : Nat) :
    (o 0 = .reset → portIsOpen timeout o d (f + 1) = some (.ok false)) ∧
    (o 0 = .timedOut → portIsOpen timeout o d (f + 1) = some (.ok false)) ∧
    (o 0 = .failure errno → portIsOpen timeout o d (f + 1) = some (.error errno)) ∧
    ((∀ j, o j = .refused) → portIsOpen (some t) o d (t + 2) = some (.ok false)) := by
  have hdl : ∀ tq : Nat, (tq != 0 && decide (tq ≤ 0)) = false := by
    intro tq
    cases tq with
    | zero => simp
    | succ n => simp
  refine ⟨?_, ?_, ?_, ?_⟩
  · intro h
    unfold portIsOpen
    rw [writeToRemotePortLoop.eq_def]
    cases timeout with
    | none => simp [h]
    | some tq => simp [h, hdl tq]
  · intro h
    unfold portIsOpen
    rw [writeToRemotePortLoop.eq_def]
    cases timeout with
    | none => simp [h]
    | some tq => simp [h, hdl tq]
  · intro h
    unfold portIsOpen
    rw [writeToRemotePortLoop.eq_def]
    cases timeout with
    | none => simp [h]
    | some tq => simp [h, hdl tq]
  · intro ho
    show writeToRemotePortLoop (some t) o d ((t + 1) + 1) 0 0 = some (.ok false)
    exact writeToRemotePortLoop_all_refused t o d ho (t + 1) 0 0 (by omega)

theorem c8_witness :
    portIsOpen (some 300) (fun _ => ConnOutcome.refused) (fun _ => 0) 302 = some (.ok false) ∧
    portIsOpen (some 300) (fun _ => ConnOutcome.reset) (fun _ => 0) 1 = some (.ok false) := by
  constructor
  · exact (c8_portIsOpen_behaviour (some 300) (fun _ => ConnOutcome.refused)
      (fun _ => 0) 0 300 0).2.2.2 (fun _ => rfl)
  · exact (c8_portIsOpen_behaviour (some 300) (fun _ => ConnOutcome.reset)
      (fun _ => 0) 0 300 0).1 rfl

/-- Running the `addGraphSpec` validation loop over a valid prefix followed by
an offending spec stops with the `InvalidGraphException` for the offender and
a graph holding exactly the prefix insertions. -/
theorem addSpecsLoop_offending (partitionAttr : String) (dmHosts : List String)
    (bad : DropSpec) (rest : List DropSpec)
    (hoid : (dget bad "oid").isSome)
    (hbad : dget bad partitionAttr = none ∨
      ∃ p, dget bad partitionAttr = some p ∧ p ∉ dmHosts) :
    ∀ (pre : List DropSpec) (pp : List (String × List DropSpec)) (g : Graph),
    (∀ d ∈ pre, validSpec partitionAttr dmHosts d) →
    ∃ pp', addSpecsLoop partitionAttr dmHosts pp g (pre ++ bad :: rest) =
      (.error (.invalidGraph (invalidGraphMsg partitionAttr bad)), pp', insertSpecs g pre) := by
  intro pre
  induction pre with
  | nil =>
    intro pp g _
    obtain ⟨oid, hoid'⟩ := Option.isSome_iff_exists.mp hoid
    rcases hbad with hnone | ⟨p, hp, hmem⟩
    · refine ⟨pp, ?_⟩
      simp only [List.nil_append, addSpecsLoop, hnone, hoid', invalidGraphMsg, insertSpecs]
      simp [hoid']
    · refine ⟨pp, ?_⟩
      simp only [List.nil_append, addSpecsLoop, hp, hmem, if_false, hoid', invalidGraphMsg,
        insertSpecs]
      simp [hoid', hmem]
  | cons d pre ih =>
    intro pp g hpre
    obtain ⟨p, hp, hpmem, huid⟩ := hpre d (by simp)
    obtain ⟨u, hu⟩ := Option.isSome_iff_exists.mp huid
    obtain ⟨pp', heq⟩ := ih (ddAppend pp p d) (dset g u d)
      (fun d' hd' => hpre d' (by simp [hd']))
    refine ⟨pp', ?_⟩
    have hstep : addSpecsLoop partitionAttr dmHosts pp g ((d :: pre) ++ bad :: rest) =
        addSpecsLoop partitionAttr dmHosts (ddAppend pp p d) (dset g u d) (pre ++ bad :: rest) := by
      show addSpecsLoop partitionAttr dmHosts pp g (d :: (pre ++ bad :: rest)) = _
      simp only [addSpecsLoop, hp, hpmem, if_true, hu]
    rw [hstep, heq]
    simp [insertSpecs, hu]

/-- C3 counterexample: at the Island tier with `dmHosts = ["h1", "h2"]`,
submitting `[{oid:"A", node:"h1"}, {oid:"B", node:"h3"}]` raises
`InvalidGraph` citing `B` and contacts no children — but the session graph is
*not* empty afterwards: the already-validated spec `A` was inserted before
the offender was examined. -/
theorem c3_counterexample :
    (islandCM.addGraphSpec rmNone failNone "s" [specA, specB3]).result =
      .error (.invalidGraph "DROP B's node h3 does not belong to this DM") ∧
    (islandCM.addGraphSpec rmNone failNone "s" [specA, specB3]).trace = [] ∧
    (islandCM.addGraphSpec rmNone failNone "s" [specA, specB3]).state.graph = [("A", specA)] := by
  refine ⟨by decide, by decide, by decide⟩

/-- C3 (amended): when the graph spec is a valid prefix followed by a spec
lacking the partition attribute (or naming a partition outside the host
list), `addGraphSpec` raises `InvalidGraph` naming the offending oid and
contacts no children — but the session graph keeps the insertions of the
specs that preceded the offender (it is not rolled back); the registry and
stored relation maps are untouched. -/
theorem c3_invalid_partition_rejection (st : CMState)
    (removeUnmet : List DropSpec → List DropSpec × List DROPRel)
    (fail : String → Option Nat) (sessionId : String)
    (pre : List DropSpec) (bad : DropSpec) (rest : List DropSpec)
    (hpre : ∀ d ∈ pre, validSpec st.partitionAttr st.dmHosts d)
    (hoid : (dget bad "oid").isSome)
    (hbad : dget bad st.partitionAttr = none ∨
      ∃ p, dget bad st.partitionAttr = some p ∧ p ∉ st.dmHosts) :
    (st.addGraphSpec removeUnmet fail sessionId (pre ++ bad :: rest)).result =
      .error (.invalidGraph (invalidGraphMsg st.partitionAttr bad)) ∧
    (st.addGraphSpec removeUnmet fail sessionId (pre ++ bad :: rest)).trace = [] ∧
    (st.addGraphSpec removeUnmet fail sessionId (pre ++ bad :: rest)).state.graph =
      insertSpecs st.graph pre ∧
    (st.addGraphSpec removeUnmet fail sessionId (pre ++ bad :: rest)).state.drop_rels =
      st.drop_rels ∧
    (st.addGraphSpec removeUnmet fail sessionId (pre ++ bad :: rest)).state.sessionIds =
      st.sessionIds := by
  obtain ⟨pp', heq⟩ := addSpecsLoop_offending st.partitionAttr st.dmHosts bad rest hoid hbad
    pre [] st.graph hpre
  simp only [CMState.addGraphSpec, heq]
  exact ⟨by trivial, by trivial, by trivial, by trivial, by trivial⟩

theorem c3_witness :
    (islandCM.addGraphSpec rmNone failNone "s" [specA, specB3]).result =
      .error (.invalidGraph (invalidGraphMsg "node" specB3)) ∧
    (islandCM.addGraphSpec rmNone failNone "s" [specA, specB3]).state.graph =
      insertSpecs [] [specA] := by
  have h := c3_invalid_partition_rejection islandCM rmNone failNone "s" [specA] specB3 []
    (by
      intro d hd
      simp only [List.mem_singleton] at hd
      subst hd
      exact ⟨"h1", by decide, by decide, by decide⟩)
    (by decide)
    (Or.inr ⟨"h3", by decide, by decide⟩)
  exact ⟨h.1, h.2.2.1⟩

/-- `group_by_node` succeeds when every uid resolves to a spec with a `node`
attribute. -/
theorem group_by_node_loop_ok (graph : Graph) :
    ∀ (uids : List String),
    (∀ u ∈ uids, ∃ spec n, dget graph u = some spec ∧ dget spec "node" = some n) →
    ∀ acc, ∃ groups, group_by_node_loop graph acc uids = .ok groups := by
  intro uids
  induction uids with
  | nil => exact fun _ acc => ⟨acc, rfl⟩
  | cons u rest ih =>
    intro h acc
    obtain ⟨spec, n, hs, hn⟩ := h u (by simp)
    obtain ⟨groups, hg⟩ := ih (fun u' hu' => h u' (by simp [hu'])) (ddAppend acc n u)
    exact ⟨groups, by simp only [group_by_node_loop, hs, hn]; exact hg⟩

/-- C6: under a session whose inter-partition map is stored and whose
subscription and deploy fan-outs succeed, `deploySession(sid, completedDrops)`
(a) fails with the unknown-uid `DaliugeException` and sends no
`trigger_drops` at all when some completed uid is absent from this tier's
session graph, and (b) when every uid is present, groups the uids by their
spec's `node` attribute and fans out `trigger_drops` only after the deploy
phase (the trace lists all deploy messages before any trigger message). -/
theorem c6_completed_drops_validation (st : CMState)
    (subFail deployFail trigFail : String → Option Nat) (sessionId : String)
    (completedDrops : List String) (dr : RelMap)
    (hdr : dget st.drop_rels sessionId = some dr)
    (hsub : ∀ p ∈ dr, subFail p.1 = none)
    (hdep : ∀ h ∈ st.dmHosts, deployFail h = none) :
    ((∃ u ∈ completedDrops, dget st.graph u = none) →
      (∃ uids, uids ≠ [] ∧
        (st.deploySession subFail deployFail trigFail sessionId completedDrops).result =
          .error (.daliugeUidsNotFound uids)) ∧
      ∀ h uids, Msg.trigger h sessionId uids ∉
        (st.deploySession subFail deployFail trigFail sessionId completedDrops).trace) ∧
    ((∀ u ∈ completedDrops, ∃ spec n, dget st.graph u = some spec ∧ dget spec "node" = some n) →
     (∀ h, trigFail h = none) →
      ∃ groups, group_by_node completedDrops st.graph = .ok groups ∧
        (st.deploySession subFail deployFail trigFail sessionId completedDrops).result = .ok () ∧
        (st.deploySession subFail deployFail trigFail sessionId completedDrops).trace =
          dr.map (fun p => Msg.subscriptions p.1 sessionId) ++
          st.dmHosts.map (fun h => Msg.deploy h sessionId) ++
          groups.map (fun p => Msg.trigger p.1 sessionId p.2)) := by
  have hsubc : collectExs (fun p => p.1) (fun p => subFail p.1) dr = [] :=
    (collectExs_eq_nil _ _ dr).mpr (fun a ha => hsub a ha)
  have hdep1 : (replicateRun "deploying session" sessionId (fun h => Msg.deploy h sessionId)
      (fun h => h) deployFail st.dmHosts).1 = .ok () :=
    (replicateRun_ok_iff _ _ _ _ _ _).mpr hdep
  have hdeptr := replicateRun_trace "deploying session" sessionId
    (fun h => Msg.deploy h sessionId) (fun h => h) deployFail st.dmHosts
  constructor
  · rintro ⟨u, hu, hnone⟩
    have hne : completedDrops.isEmpty = false := by
      cases completedDrops with
      | nil => cases hu
      | cons a rest => rfl
    have hmemf : u ∈ completedDrops.filter (fun u => dget st.graph u = none) :=
      List.mem_filter.mpr ⟨hu, by simp [hnone]⟩
    have hmemd : u ∈ (completedDrops.filter (fun u => dget st.graph u = none)).dedup :=
      List.mem_dedup.mpr hmemf
    have hnfne : (completedDrops.filter (fun u => dget st.graph u = none)).dedup ≠ [] :=
      List.ne_nil_of_mem hmemd
    have hnf : ((completedDrops.filter (fun u => dget st.graph u = none)).dedup).isEmpty = false := by
      cases hh : (completedDrops.filter (fun u => dget st.graph u = none)).dedup with
      | nil => exact absurd hh hnfne
      | cons a rest => rfl
    have hout : st.deploySession subFail deployFail trigFail sessionId completedDrops =
        ⟨.error (.daliugeUidsNotFound
            ((completedDrops.filter (fun u => dget st.graph u = none)).dedup)), st,
          dr.map (fun p => Msg.subscriptions p.1 sessionId) ++
          st.dmHosts.map (fun h => Msg.deploy h sessionId)⟩ := by
      simp [CMState.deploySession, hdr, fanoutCaught, hsubc, hdep1, hdeptr, hne, hnf]
    rw [hout]
    constructor
    · exact ⟨_, hnfne, rfl⟩
    · intro h uids
      simp [List.mem_append, List.mem_map]
  · intro hall htrig
    by_cases hemp : completedDrops.isEmpty
    · have hnil : completedDrops = [] := by
        cases completedDrops with
        | nil => rfl
        | cons a rest => cases hemp
      subst hnil
      refine ⟨[], rfl, ?_⟩
      have hout : st.deploySession subFail deployFail trigFail sessionId [] =
          ⟨.ok (), st,
            dr.map (fun p => Msg.subscriptions p.1 sessionId) ++
            st.dmHosts.map (fun h => Msg.deploy h sessionId)⟩ := by
        simp [CMState.deploySession, hdr, fanoutCaught, hsubc, hdep1, hdeptr]
      rw [hout]
      simp
    · have hfilter : completedDrops.filter (fun u => dget st.graph u = none) = [] := by
        rw [List.filter_eq_nil_iff]
        intro u hu
        obtain ⟨spec, n, hs, _⟩ := hall u hu
        simp [hs]
      obtain ⟨groups, hg⟩ := group_by_node_loop_ok st.graph completedDrops hall []
      have hgg : group_by_node completedDrops st.graph = .ok groups := hg
      have htrigc : collectExs (fun p => p.1) (fun p => trigFail p.1) groups = [] :=
        (collectExs_eq_nil _ _ groups).mpr (fun a _ => htrig a.1)
      have hne : completedDrops.isEmpty = false := by
        cases hh : completedDrops.isEmpty with
        | false => rfl
        | true => exact absurd hh hemp
      have hout : st.deploySession subFail deployFail trigFail sessionId completedDrops =
          ⟨.ok (), st,
            dr.map (fun p => Msg.subscriptions p.1 sessionId) ++
            st.dmHosts.map (fun h => Msg.deploy h sessionId) ++
            groups.map (fun p => Msg.trigger p.1 sessionId p.2)⟩ := by
        simp [CMState.deploySession, hdr, fanoutCaught, hsubc, hdep1, hdeptr, hne, hfilter,
          hgg, htrigc]
      rw [hout]
      exact ⟨groups, hgg, rfl, rfl⟩

theorem c6_witness :
    (islandWithGraph.deploySession failNone failNone failNone "s" ["A", "B"]).result = .ok () ∧
    (islandWithGraph.deploySession failNone failNone failNone "s" ["A", "B"]).trace =
      [.subscriptions "h1" "s", .subscriptions "h2" "s", .deploy "h1" "s", .deploy "h2" "s",
       .trigger "h1" "s" ["A"], .trigger "h2" "s" ["B"]] := by
  obtain ⟨groups, hg, hres, htr⟩ := (c6_completed_drops_validation islandWithGraph
    failNone failNone failNone "s" ["A", "B"]
    [("h1", [("h2", [relAB])]), ("h2", [("h1", [relAB])])]
    (by decide) (fun p _ => rfl) (fun h _ => rfl)).2
    (by
      intro u hu
      rcases (by simpa using hu : u = "A" ∨ u = "B") with h | h <;> subst h
      · exact ⟨specA, "h1", by decide, by decide⟩
      · exact ⟨specB2, "h2", by decide, by decide⟩)
    (fun h => rfl)
  have hc : group_by_node ["A", "B"] islandWithGraph.graph =
      .ok [("h1", ["A"]), ("h2", ["B"])] := by decide
  rw [hc] at hg
  injection hg with hgv
  subst hgv
  rw [htr]
  exact ⟨hres, by decide⟩

end Dfms
